import Mathlib

/-!
Verification development for the brainmap.js radial mindmap widget
(src/brainmap.js, class MindMap).

The JavaScript tree nodes are plain objects `{id, name, children?}` on which
the render pipeline (`countLeaves`, `layoutRoot`, `layout`) sets transient
fields `_leafCount`, `_isLeaf`, `_isRoot`, `_depth`, `_angle`, `_x`, `_y`
in place.  We embed such an object as `JNode`: a record of the persisted
and transient fields (absent JS properties are `none`) together with an
optional child list (a missing `children` property is `none`, an empty
array is `some []` — the two are distinguished by JS truthiness:
`!node.children` is true for a missing property and false for `[]`).

JS floating-point numbers are embedded as `ℚ`; `Math.cos`, `Math.sin`,
`Math.sqrt` and the constant `Math.PI` are abstract parameters
(`cosF`, `sinF`, `sqrtF`, `piQ`), since none of the verified claims depend
on their values.
-/

/-- Fields of one mindmap node object.  `id`, `name` (and the optional
child list, kept outside this record) are the persisted fields; the
remaining fields embed the transient `_leafCount`, `_isLeaf`, `_isRoot`,
`_depth`, `_angle`, `_x`, `_y` properties, `none` when the property has
not been set. -/
structure NodeData where
  id : String
  name : String
  leafCount : Option ℕ := none
  isLeaf : Option Bool := none
  isRoot : Option Bool := none
  depth : Option ℕ := none
  angle : Option ℚ := none
  x : Option ℚ := none
  y : Option ℚ := none
deriving DecidableEq

/-- A mindmap tree node: its fields plus the optional `children` array. -/
inductive JNode where
  | mk (dat : NodeData) (children : Option (List JNode))

/-- Field record of a node. -/
def JNode.dat : JNode → NodeData
  | .mk d _ => d

/-- Child list of a node (`none` = the JS object has no `children` property). -/
def JNode.children : JNode → Option (List JNode)
  | .mk _ cs => cs

/-- Id of a node. -/
def JNode.idOf (t : JNode) : String := t.dat.id

/-- Name of a node. -/
def JNode.nameOf (t : JNode) : String := t.dat.name

mutual
/-- Boolean structural equality on embedded nodes. -/
def beqJNode : JNode → JNode → Bool
  | .mk d1 none, .mk d2 none => decide (d1 = d2)
  | .mk d1 (some cs1), .mk d2 (some cs2) => decide (d1 = d2) && beqJNodeList cs1 cs2
  | _, _ => false
/-- Boolean structural equality on lists of embedded nodes. -/
def beqJNodeList : List JNode → List JNode → Bool
  | [], [] => true
  | c1 :: cs1, c2 :: cs2 => beqJNode c1 c2 && beqJNodeList cs1 cs2
  | _, _ => false
end

mutual
theorem beqJNode_iff : ∀ a b : JNode, beqJNode a b = true ↔ a = b
  | .mk d1 none, .mk d2 none => by simp [beqJNode]
  | .mk d1 (some cs1), .mk d2 (some cs2) => by
    simp [beqJNode, beqJNodeList_iff cs1 cs2]
  | .mk d1 none, .mk d2 (some cs2) => by simp [beqJNode]
  | .mk d1 (some cs1), .mk d2 none => by simp [beqJNode]
theorem beqJNodeList_iff : ∀ a b : List JNode, beqJNodeList a b = true ↔ a = b
  | [], [] => by simp [beqJNodeList]
  | c1 :: cs1, c2 :: cs2 => by
    simp [beqJNodeList, beqJNode_iff c1 c2, beqJNodeList_iff cs1 cs2]
  | [], _ :: _ => by simp [beqJNodeList]
  | _ :: _, [] => by simp [beqJNodeList]
end

instance : DecidableEq JNode := fun a b => decidable_of_iff _ (beqJNode_iff a b)

/-- Embedding of the JS idiom `value || fallback` applied to an optional
string argument: a missing argument (`none`) and the empty string are
falsy, every other string is returned unchanged. -/
def jsOrElse (v : Option String) (fallback : String) : String :=
  match v with
  | none => fallback
  | some s => if s = "" then fallback else s

/-! ### findNodeById / findParentById (src/brainmap.js lines 542-563)

`findNodeById` checks the node itself, then scans the children in order,
recursing fully into each child before moving to the next.
`findParentById` scans the children of the current node in order; for each
child it first tests whether that child is the sought node (in which case
the *current* node is the parent) and otherwise recurses fully into the
child's subtree before moving on. -/

mutual
/-- Embeds `findNodeById(tree, id)`. -/
def findNodeById : JNode → String → Option JNode
  | t@(.mk d cs), i =>
    if d.id = i then some t
    else
      match cs with
      | none => none
      | some children => findNodeInList children i
/-- The `for (const child of tree.children)` search loop of `findNodeById`. -/
def findNodeInList : List JNode → String → Option JNode
  | [], _ => none
  | c :: cs, i =>
    match findNodeById c i with
    | some found => some found
    | none => findNodeInList cs i
end

mutual
/-- Embeds `findParentById(tree, childId)`. -/
def findParentById : JNode → String → Option JNode
  | t@(.mk _ cs), i =>
    match cs with
    | none => none
    | some children => findParentInList t children i
/-- The search loop of `findParentById`; `self` is the node whose children
are being scanned. -/
def findParentInList (self : JNode) : List JNode → String → Option JNode
  | [], _ => none
  | c :: cs, i =>
    if c.idOf = i then some self
    else
      match findParentById c i with
      | some found => some found
      | none => findParentInList self cs i
end

/-! ### In-place tree mutations

The JS operations locate a node object by reference and mutate it in
place.  We embed each mutation as a rebuild of the tree that applies the
change at the *first* node the corresponding search would have found,
following exactly the search order of `findNodeById` / `findParentById`.
Each function also returns whether the mutation fired, mirroring whether
the JS search found its target. -/

mutual
/-- Applies the `addChild` mutation (append `nw` to the child array of the
node with id `i`, creating the array if the `children` property is
absent — `if (!parent.children) parent.children = []` — then `push`). -/
def pushChild (i : String) (nw : JNode) : JNode → JNode × Bool
  | .mk d cs =>
    if d.id = i then
      match cs with
      | none => (.mk d (some [nw]), true)
      | some children => (.mk d (some (children ++ [nw])), true)
    else
      match cs with
      | none => (.mk d none, false)
      | some children =>
        let r := pushChildList i nw children
        (.mk d (some r.1), r.2)
/-- Child-list traversal for `pushChild`, in `findNodeById` search order. -/
def pushChildList (i : String) (nw : JNode) : List JNode → List JNode × Bool
  | [] => ([], false)
  | c :: cs =>
    let rc := pushChild i nw c
    if rc.2 then (rc.1 :: cs, true)
    else
      let rcs := pushChildList i nw cs
      (c :: rcs.1, rcs.2)
end

mutual
/-- Applies the `addSibling` mutation: in the parent that
`findParentById` would return for id `i`, splice `nw` immediately after
the first child whose id is `i`. -/
def spliceSibling (i : String) (nw : JNode) : JNode → JNode × Bool
  | .mk d cs =>
    match cs with
    | none => (.mk d none, false)
    | some children =>
      let r := spliceSiblingList i nw children
      (.mk d (some r.1), r.2)
/-- Child-list traversal for `spliceSibling`, in `findParentById` search
order: insertion happens right after the first direct child with id `i`;
otherwise the walk recurses fully into each child before moving on. -/
def spliceSiblingList (i : String) (nw : JNode) : List JNode → List JNode × Bool
  | [] => ([], false)
  | c :: cs =>
    if c.idOf = i then (c :: nw :: cs, true)
    else
      let rc := spliceSibling i nw c
      if rc.2 then (rc.1 :: cs, true)
      else
        let rcs := spliceSiblingList i nw cs
        (c :: rcs.1, rcs.2)
end

mutual
/-- Applies the `deleteNode` mutation: in the parent that `findParentById`
would return for id `i`, splice out the first child whose id is `i`.
Also returns the removed child's name (used in the status message). -/
def spliceOut (i : String) : JNode → JNode × Option String
  | .mk d cs =>
    match cs with
    | none => (.mk d none, none)
    | some children =>
      let r := spliceOutList i children
      (.mk d (some r.1), r.2)
/-- Child-list traversal for `spliceOut`, in `findParentById` search order. -/
def spliceOutList (i : String) : List JNode → List JNode × Option String
  | [] => ([], none)
  | c :: cs =>
    if c.idOf = i then (cs, some c.nameOf)
    else
      let rc := spliceOut i c
      match rc.2 with
      | some nm => (rc.1 :: cs, some nm)
      | none =>
        let rcs := spliceOutList i cs
        (c :: rcs.1, rcs.2)
end

mutual
/-- Applies the `renameNode` mutation: set the `name` field of the first
node (in `findNodeById` search order) whose id is `i` to `nm`. -/
def renameFirst (i nm : String) : JNode → JNode × Bool
  | .mk d cs =>
    if d.id = i then (.mk { d with name := nm } cs, true)
    else
      match cs with
      | none => (.mk d none, false)
      | some children =>
        let r := renameFirstList i nm children
        (.mk d (some r.1), r.2)
/-- Child-list traversal for `renameFirst`, in `findNodeById` search order. -/
def renameFirstList (i nm : String) : List JNode → List JNode × Bool
  | [] => ([], false)
  | c :: cs =>
    let rc := renameFirst i nm c
    if rc.2 then (rc.1 :: cs, true)
    else
      let rcs := renameFirstList i nm cs
      (c :: rcs.1, rcs.2)
end

/-! ### Id generation (src/brainmap.js lines 281-283)

`generateId()` returns `'node_' + (++this.nodeIdCounter)`: the instance
counter (seeded from `Date.now()` at construction) is incremented and the
new value is rendered in decimal and appended to `node_`.  We embed the
JS number-to-string conversion (integers are rendered in decimal) with an
explicit fuel-structured decimal converter so that it evaluates inside
the kernel. -/

/-- Little-endian decimal digits of `m`; `fuel ≥ m` makes the recursion
structural. -/
def decDigitsAux : ℕ → ℕ → List ℕ
  | _, 0 => []
  | 0, _ + 1 => []
  | fuel + 1, m + 1 => (m + 1) % 10 :: decDigitsAux fuel ((m + 1) / 10)

/-- Little-endian decimal digits of `n` (empty for 0). -/
def decDigits (n : ℕ) : List ℕ := decDigitsAux n n

/-- Decimal string of a natural number, as JS `String(n)` produces it. -/
def natToString (n : ℕ) : String :=
  if n = 0 then "0" else String.mk (((decDigits n).map Nat.digitChar).reverse)

/-- Embeds `generateId()` for counter value `c`: the id string uses the
incremented counter `c + 1`. -/
def generateId (c : ℕ) : String := "node_" ++ natToString (c + 1)

/-! ### Leaf-count annotator (src/brainmap.js lines 871-882)

`countLeaves(node)` sets `_leafCount` and `_isLeaf` on every node of the
subtree and returns the subtree's leaf count.  A missing `children`
property and an empty child array are both leaves. -/

mutual
/-- Embeds `countLeaves(node)`: the annotated subtree plus its leaf count. -/
def countLeaves : JNode → JNode × ℕ
  | .mk d none => (.mk { d with leafCount := some 1, isLeaf := some true } none, 1)
  | .mk d (some cs) =>
    if cs.isEmpty then
      (.mk { d with leafCount := some 1, isLeaf := some true } (some cs), 1)
    else
      let r := countLeavesList cs
      (.mk { d with isLeaf := some false, leafCount := some r.2 } (some r.1), r.2)
/-- The `for (const c of node.children) sum += countLeaves(c)` loop. -/
def countLeavesList : List JNode → List JNode × ℕ
  | [] => ([], 0)
  | c :: cs =>
    let rc := countLeaves c
    let rcs := countLeavesList cs
    (rc.1 :: rcs.1, rc.2 + rcs.2)
end

mutual
/-- The pure leaf count of a subtree (the value `countLeaves` computes and
stores). -/
def leaves : JNode → ℕ
  | .mk _ none => 1
  | .mk _ (some cs) => if cs.isEmpty then 1 else leavesList cs
/-- Sum of the leaf counts of a list of subtrees. -/
def leavesList : List JNode → ℕ
  | [] => 0
  | c :: cs => leaves c + leavesList cs
end

/-- The stored `_leafCount` field of a node (`0` stands for the absent
property; the layout pass only ever runs on annotated trees, where the
field is present). -/
def JNode.lcField (t : JNode) : ℕ := t.dat.leafCount.getD 0

/-! ### Radial layout engine (src/brainmap.js lines 887-932)

`layout(node, startAngle, endAngle, depth)` stores the midpoint angle,
depth and Cartesian position on `node`, then splits `[startAngle, endAngle)`
among the children proportionally to `_leafCount` and recurses.
`layoutRoot(root)` pins the root to the canvas center and distributes the
full sweep `[-π/2 + gap, -π/2 + 2π - gap)` (gap = 0.0001) over the root's
children the same way. -/

section LayoutEngine

variable (cosF sinF : ℚ → ℚ) (radiusStep width height : ℚ)

/-- The angular span `(endAngle - startAngle) * (c._leafCount / parentLC)`
allocated to child `c` inside the parent interval. -/
def spanOf (startAngle endAngle : ℚ) (parentLC : ℕ) (c : JNode) : ℚ :=
  (endAngle - startAngle) * ((c.lcField : ℚ) / (parentLC : ℚ))

/-- The angular intervals the child loop of `layout` assigns to a child
list, starting the accumulator at `a` (the loop starts it at
`startAngle`). -/
def childIntervals (startAngle endAngle : ℚ) (parentLC : ℕ) :
    List JNode → ℚ → List (ℚ × ℚ)
  | [], _ => []
  | c :: cs, a =>
    (a, a + spanOf startAngle endAngle parentLC c) ::
      childIntervals startAngle endAngle parentLC cs
        (a + spanOf startAngle endAngle parentLC c)

mutual
/-- Embeds `layout(node, startAngle, endAngle, depth)`. -/
def layout : JNode → ℚ → ℚ → ℕ → JNode
  | .mk d cs, startAngle, endAngle, depth =>
    let mid := (startAngle + endAngle) / 2
    let r := (depth : ℚ) * radiusStep
    let centerX := width / 2
    let centerY := height / 2
    let d' := { d with x := some (centerX + r * cosF mid),
                       y := some (centerY + r * sinF mid),
                       angle := some mid,
                       depth := some depth }
    match cs with
    | none => .mk d' none
    | some children =>
      if children.isEmpty then .mk d' (some children)
      else .mk d' (some (layoutChildren (d.leafCount.getD 0)
        startAngle endAngle depth children startAngle))
/-- The child loop of `layout`: each child is laid out on its interval and
the running angle advances by the child's span; `depth` is the parent's
depth, so children are laid out at `depth + 1`. -/
def layoutChildren (parentLC : ℕ) (startAngle endAngle : ℚ) (depth : ℕ) :
    List JNode → ℚ → List JNode
  | [], _ => []
  | c :: cs, a =>
    layout c a (a + spanOf startAngle endAngle parentLC c) (depth + 1) ::
      layoutChildren parentLC startAngle endAngle depth cs
        (a + spanOf startAngle endAngle parentLC c)
end

variable (piQ : ℚ)

/-- The root's full angular budget `(-π/2 + gap, -π/2 + 2π - gap)` with
`gap = 0.0001`, as set up in `layoutRoot`. -/
def rootBudget : ℚ × ℚ :=
  (-piQ / 2 + 1 / 10000, -piQ / 2 + piQ * 2 - 1 / 10000)

/-- Embeds `layoutRoot(root)`: the root is pinned to the canvas center at
depth 0 and angle 0 and marked `_isRoot`; its children are laid out over
the root budget at depth 1. -/
def layoutRoot : JNode → JNode
  | .mk d cs =>
    let centerX := width / 2
    let centerY := height / 2
    let d' := { d with x := some centerX, y := some centerY,
                       angle := some 0, depth := some 0, isRoot := some true }
    match cs with
    | none => .mk d' none
    | some children =>
      .mk d' (some (layoutChildren cosF sinF radiusStep width height
        (d.leafCount.getD 0) (rootBudget piQ).1 (rootBudget piQ).2 0
        children (rootBudget piQ).1))

/-- Embeds `render()` on a non-null tree: annotate leaf counts, then lay
out from the root (the `draw` and `updateTransform` steps only touch the
DOM). -/
def render (t : JNode) : JNode :=
  layoutRoot cosF sinF radiusStep width height piQ (countLeaves t).1

end LayoutEngine

/-! ### Paths into a tree -/

/-- The subtree reached by descending along child indices `p`. -/
def subtreeAt : List ℕ → JNode → Option JNode
  | [], t => some t
  | i :: p, .mk _ cs =>
    match cs with
    | none => none
    | some children =>
      match children.get? i with
      | some c => subtreeAt p c
      | none => none

/-- The angular interval the layout pass assigns to the node reached by
path `p`, when the subtree at the root of the recursion was assigned
`(s, e)`: each step looks the child's interval up in `childIntervals`. -/
def IntervalAt : List ℕ → JNode → ℚ → ℚ → Option (ℚ × ℚ)
  | [], _, s, e => some (s, e)
  | i :: p, .mk d cs, s, e =>
    match cs with
    | none => none
    | some children =>
      match children.get? i,
            (childIntervals s e (d.leafCount.getD 0) children s).get? i with
      | some c, some iv => IntervalAt p c iv.1 iv.2
      | _, _ => none

/-! ### Data snapshot I/O (src/brainmap.js lines 262-276)

`setData` and `getData` deep-clone via `JSON.parse(JSON.stringify(tree))`.
`JSON.stringify` serializes every own enumerable property — including the
underscore-prefixed transient layout fields once `render()` has set them —
so the round trip is a structural copy that preserves every field of the
embedded node. -/

mutual
/-- Embeds `JSON.parse(JSON.stringify(t))` on an embedded node: a
structural deep copy. -/
def jsonRoundtrip : JNode → JNode
  | .mk d none => .mk d none
  | .mk d (some cs) => .mk d (some (jsonRoundtripList cs))
def jsonRoundtripList : List JNode → List JNode
  | [] => []
  | c :: cs => jsonRoundtrip c :: jsonRoundtripList cs
end

/-- Embeds `getData()` on a non-null stored tree. -/
def getData (treeData : JNode) : JNode := jsonRoundtrip treeData

/-- Embeds `setData(data)` followed by the `render()` it triggers: the
stored tree is the deep-cloned input with the transient fields the render
pass writes. -/
def setData (cosF sinF : ℚ → ℚ) (radiusStep width height piQ : ℚ)
    (data : JNode) : JNode :=
  render cosF sinF radiusStep width height piQ (jsonRoundtrip data)

/-! ### Edit operations (src/brainmap.js lines 568-645)

Each operation returns its JS boolean result together with the updated
tree (and, for `deleteNode`, the status message it sets, `none` when no
`setStatus` call happens on that path).  The `render()` call that a
successful mutation triggers only rewrites the transient layout fields
(covered by `render` above) and is not repeated inside these embeddings.
The instance state relevant here is the tree plus the id counter. -/

/-- Mutable instance state used by the tree-edit operations. -/
structure MapState where
  treeData : JNode
  nodeIdCounter : ℕ
deriving DecidableEq

/-- Embeds `addChild(parentId, name)`.  The `name` argument is optional in
JS; `none` stands for a missing argument. -/
def addChild (editable : Bool) (st : MapState) (parentId : String)
    (name : Option String) : Bool × MapState :=
  if !editable then (false, st)
  else
    match findNodeById st.treeData parentId with
    | none => (false, st)
    | some _ =>
      let newNode : JNode :=
        .mk { id := generateId st.nodeIdCounter, name := jsOrElse name "New Node" } none
      (true, { treeData := (pushChild parentId newNode st.treeData).1,
               nodeIdCounter := st.nodeIdCounter + 1 })

/-- Embeds `addSibling(nodeId, name)`. -/
def addSibling (editable : Bool) (st : MapState) (nodeId : String)
    (name : Option String) : Bool × MapState :=
  if !editable then (false, st)
  else
    match findParentById st.treeData nodeId with
    | none => (false, st)
    | some _ =>
      let newNode : JNode :=
        .mk { id := generateId st.nodeIdCounter, name := jsOrElse name "New Node" } none
      (true, { treeData := (spliceSibling nodeId newNode st.treeData).1,
               nodeIdCounter := st.nodeIdCounter + 1 })

/-- Embeds `deleteNode(nodeId)`: the boolean result, the status message
set on this code path (`none` when none is set), and the resulting tree. -/
def deleteNode (editable : Bool) (t : JNode) (nodeId : String) :
    Bool × Option String × JNode :=
  if !editable then (false, none, t)
  else if nodeId = t.idOf then (false, some "Cannot delete root node", t)
  else
    match findParentById t nodeId with
    | none => (false, none, t)
    | some _ =>
      let r := spliceOut nodeId t
      (true, r.2.map (fun nm => "Deleted \"" ++ nm ++ "\""), r.1)

/-- Embeds `renameNode(nodeId, newName)`: `node.name = newName || 'Unnamed'`
falls back to the placeholder exactly when `newName` is the empty string. -/
def renameNode (editable : Bool) (t : JNode) (nodeId newName : String) :
    Bool × JNode :=
  if !editable then (false, t)
  else
    match findNodeById t nodeId with
    | none => (false, t)
    | some _ => (true, (renameFirst nodeId (jsOrElse (some newName) "Unnamed") t).1)

/-- A tree-growing call: `addChild` or `addSibling` (both with the
`editable` gate open, as in the default configuration). -/
inductive EditOp where
  | child (parentId : String) (name : Option String)
  | sibling (nodeId : String) (name : Option String)

/-- Runs one `EditOp` on the instance state. -/
def applyOp (st : MapState) : EditOp → MapState
  | .child pid nm => (addChild true st pid nm).2
  | .sibling nid nm => (addSibling true st nid nm).2

/-- Runs a sequence of `EditOp`s left to right. -/
def applyOps (st : MapState) (ops : List EditOp) : MapState :=
  ops.foldl applyOp st

mutual
/-- All node ids of a tree, in preorder. -/
def allIds : JNode → List String
  | .mk d none => [d.id]
  | .mk d (some cs) => d.id :: allIdsList cs
/-- All node ids of a list of subtrees. -/
def allIdsList : List JNode → List String
  | [] => []
  | c :: cs => allIds c ++ allIdsList cs
end

/-! ### Viewport / gesture handlers (src/brainmap.js lines 307-492)

The viewport state is the zoom scalar, the pan offset, and the gesture
bookkeeping fields.  Screen geometry enters through the SVG element's
bounding client rectangle (a parameter `rect`), touch events through the
list of `(clientX, clientY)` touch points, and the `closest('.mindmap-node')`
test through a boolean `onNode`.  `Math.sqrt` is the abstract `sqrtF`. -/

/-- The SVG element's `getBoundingClientRect()`. -/
structure ClientRect where
  left : ℚ
  top : ℚ
  width : ℚ
  height : ℚ

/-- The `dragStart` record of `handleMouseDown`. -/
structure DragStart where
  x : ℚ
  y : ℚ
  ox : ℚ
  oy : ℚ
deriving DecidableEq

/-- The `touchStart` record; the `zoom`/`svgX`/`svgY` fields are only set
by a two-touch `touchstart`. -/
structure TouchRecord where
  x : ℚ
  y : ℚ
  ox : ℚ
  oy : ℚ
  zoom : Option ℚ := none
  svgX : Option ℚ := none
  svgY : Option ℚ := none
deriving DecidableEq

/-- Viewport and gesture state of a MindMap instance. -/
structure ViewState where
  zoom : ℚ := 1
  offsetX : ℚ := 0
  offsetY : ℚ := 0
  isDragging : Bool := false
  dragStart : Option DragStart := none
  isEditing : Bool := false
  isTouching : Bool := false
  touchStart : Option TouchRecord := none
  lastTouchDistance : Option ℚ := none
  lastTouchCenter : Option (ℚ × ℚ) := none
deriving DecidableEq

/-- Embeds `screenToSvg(screenX, screenY)` for canvas size `W × H`. -/
def screenToSvg (W H : ℚ) (rect : ClientRect) (screenX screenY : ℚ) : ℚ × ℚ :=
  ((screenX - rect.left) / rect.width * W, (screenY - rect.top) / rect.height * H)

/-- Embeds `handleWheel(e)`; `deltaY` is the wheel delta.  The anchor is
`screenToSvg` of the midpoint of the bounding rectangle, and the new
offset re-solves the anchor equation for the new zoom.  No clamping is
applied to `newZoom`. -/
def handleWheel (W H : ℚ) (rect : ClientRect) (deltaY : ℚ)
    (s : ViewState) : ViewState :=
  if s.isEditing then s
  else
    let scaleFactor : ℚ := if 0 < deltaY then 9 / 10 else 11 / 10
    let newZoom := s.zoom * scaleFactor
    let centerPoint := screenToSvg W H rect
      (rect.left + rect.width / 2) (rect.top + rect.height / 2)
    let fixedX := (centerPoint.1 - s.offsetX) / s.zoom
    let fixedY := (centerPoint.2 - s.offsetY) / s.zoom
    { s with zoom := newZoom,
             offsetX := centerPoint.1 - fixedX * newZoom,
             offsetY := centerPoint.2 - fixedY * newZoom }

/-- Embeds `handleMouseDown(e)` (the cursor change is DOM-only). -/
def handleMouseDown (clientX clientY : ℚ) (s : ViewState) : ViewState :=
  if s.isEditing then s
  else { s with isDragging := true,
                dragStart := some ⟨clientX, clientY, s.offsetX, s.offsetY⟩ }

/-- Embeds `handleMouseMove(e)`.  When `isDragging` is set the JS code has
always stored `dragStart`; the `none` fallback keeps the function total. -/
def handleMouseMove (clientX clientY : ℚ) (s : ViewState) : ViewState :=
  if !s.isDragging || s.isEditing then s
  else
    match s.dragStart with
    | none => s
    | some ds =>
      { s with offsetX := ds.ox + (clientX - ds.x),
               offsetY := ds.oy + (clientY - ds.y) }

/-- Embeds `getTouchDistance(touches)`. -/
def getTouchDistance (sqrtF : ℚ → ℚ) (t1 t2 : ℚ × ℚ) : ℚ :=
  sqrtF ((t1.1 - t2.1) * (t1.1 - t2.1) + (t1.2 - t2.2) * (t1.2 - t2.2))

/-- Embeds `getTouchCenter(touches)`. -/
def getTouchCenter (t1 t2 : ℚ × ℚ) : ℚ × ℚ :=
  ((t1.1 + t2.1) / 2, (t1.2 + t2.2) / 2)

/-- Embeds `handleTouchStart(e)`: `onNode` is the
`target.closest('.mindmap-node')` test, `touches` the active touch
points. -/
def handleTouchStart (sqrtF : ℚ → ℚ) (W H : ℚ) (rect : ClientRect)
    (onNode : Bool) (touches : List (ℚ × ℚ)) (s : ViewState) : ViewState :=
  if s.isEditing then s
  else if onNode then s
  else
    let s := { s with isTouching := true }
    match touches with
    | [t] =>
      { s with isDragging := true,
               touchStart := some ⟨t.1, t.2, s.offsetX, s.offsetY, none, none, none⟩ }
    | [t1, t2] =>
      let dist := getTouchDistance sqrtF t1 t2
      let center := getTouchCenter t1 t2
      let svgCenter := screenToSvg W H rect center.1 center.2
      { s with isDragging := false,
               lastTouchDistance := some dist,
               lastTouchCenter := some center,
               touchStart := some ⟨center.1, center.2, s.offsetX, s.offsetY,
                 some s.zoom, some svgCenter.1, some svgCenter.2⟩ }
    | _ => s

/-- Embeds `handleTouchMove(e)`.  The two-touch branch fires only when
`lastTouchDistance` is truthy (non-null and non-zero) and `touchStart` is
set; the pinch zoom is clamped to `[0.1, 5]` by
`Math.max(0.1, Math.min(5, ...))`.  The `getD` fallbacks stand for fields
that the two-touch `touchstart` always populates before this branch can
run. -/
def handleTouchMove (sqrtF : ℚ → ℚ) (W H : ℚ) (rect : ClientRect)
    (onNode : Bool) (touches : List (ℚ × ℚ)) (s : ViewState) : ViewState :=
  if !s.isTouching || s.isEditing then s
  else if onNode then s
  else
    match touches with
    | [t] =>
      if s.isDragging then
        match s.touchStart with
        | none => s
        | some ts =>
          { s with offsetX := ts.ox + (t.1 - ts.x),
                   offsetY := ts.oy + (t.2 - ts.y) }
      else s
    | [t1, t2] =>
      match s.lastTouchDistance, s.touchStart with
      | some ld, some ts =>
        if ld = 0 then s
        else
          let currentDistance := getTouchDistance sqrtF t1 t2
          let currentCenter := getTouchCenter t1 t2
          let scaleFactor := currentDistance / ld
          let newZoom := max (1 / 10) (min 5 (ts.zoom.getD 0 * scaleFactor))
          let fixedX := (ts.svgX.getD 0 - ts.ox) / ts.zoom.getD 0
          let fixedY := (ts.svgY.getD 0 - ts.oy) / ts.zoom.getD 0
          let centerDx := currentCenter.1 - (s.lastTouchCenter.getD (0, 0)).1
          let centerDy := currentCenter.2 - (s.lastTouchCenter.getD (0, 0)).2
          let svgCenter := screenToSvg W H rect currentCenter.1 currentCenter.2
          { s with zoom := newZoom,
                   offsetX := svgCenter.1 - fixedX * newZoom + centerDx,
                   offsetY := svgCenter.2 - fixedY * newZoom + centerDy }
      | _, _ => s
    | _ => s

/-- One touch-move event: the data `handleTouchMove` consumes. -/
structure TouchMoveEvent where
  onNode : Bool
  touches : List (ℚ × ℚ)

/-- Runs a sequence of touch-move events through `handleTouchMove`. -/
def runTouchMoves (sqrtF : ℚ → ℚ) (W H : ℚ) (rect : ClientRect)
    (s : ViewState) (evs : List TouchMoveEvent) : ViewState :=
  evs.foldl (fun s ev => handleTouchMove sqrtF W H rect ev.onNode ev.touches s) s

/-- Runs `n` wheel events with a fixed `deltaY` through `handleWheel`. -/
def runWheels (W H : ℚ) (rect : ClientRect) (deltaY : ℚ)
    (s : ViewState) : ℕ → ViewState
  | 0 => s
  | n + 1 => handleWheel W H rect deltaY (runWheels W H rect deltaY s n)

/-! ### Concrete inputs used to instantiate the verified properties -/

/-- The scenario tree from the specification:
`{id:"root", name:"R", children:[{id:"a"}, {id:"b", children:[{id:"b1"}]}]}`. -/
def specTree : JNode :=
  .mk { id := "root", name := "R" } (some [
    .mk { id := "a", name := "A" } none,
    .mk { id := "b", name := "B" } (some [.mk { id := "b1", name := "B1" } none])])

/-- The scenario tree with the annotation `countLeaves` computes already
stored (leaf counts root=2, a=1, b=1, b1=1). -/
def specTreeAnnotated : JNode :=
  .mk { id := "root", name := "R", leafCount := some 2, isLeaf := some false } (some [
    .mk { id := "a", name := "A", leafCount := some 1, isLeaf := some true } none,
    .mk { id := "b", name := "B", leafCount := some 1, isLeaf := some false } (some [
      .mk { id := "b1", name := "B1", leafCount := some 1, isLeaf := some true } none])])

/-- A perfectly legal caller-supplied tree whose second node already uses
the id the generator will produce next. -/
def collideTree : JNode :=
  .mk { id := "root", name := "R" } (some [.mk { id := "node_1", name := "X" } none])

/-- A single-node tree used for the rename counterexample. -/
def soloTree : JNode := .mk { id := "a", name := "x" } none

/-- Placeholder for the trigonometric parameters in concrete instances. -/
def qzero : ℚ → ℚ := fun _ => 0

/-- A concrete bounding rectangle for concrete gesture instances. -/
def rect0 : ClientRect := ⟨0, 0, 800, 800⟩

/-- The viewport state at construction / after `resetView()`. -/
def initialView : ViewState := {}

/-! ### Supporting lemmas -/

theorem handleWheel_isEditing (W H : ℚ) (rect : ClientRect) (d : ℚ)
    (s : ViewState) : (handleWheel W H rect d s).isEditing = s.isEditing := by
  unfold handleWheel
  split <;> rfl

theorem handleWheel_zoom (W H : ℚ) (rect : ClientRect) (d : ℚ)
    (s : ViewState) (h : s.isEditing = false) :
    (handleWheel W H rect d s).zoom
      = s.zoom * (if 0 < d then 9 / 10 else 11 / 10) := by
  simp [handleWheel, h]

theorem runWheels_isEditing (W H : ℚ) (rect : ClientRect) (d : ℚ)
    (s : ViewState) (n : ℕ) :
    (runWheels W H rect d s n).isEditing = s.isEditing := by
  induction n with
  | zero => rfl
  | succ n ih => rw [runWheels, handleWheel_isEditing, ih]

theorem runWheels_zoom_zoomIn (W H : ℚ) (rect : ClientRect)
    (s : ViewState) (h : s.isEditing = false) (n : ℕ) :
    (runWheels W H rect (-1) s n).zoom = s.zoom * (11 / 10) ^ n := by
  induction n with
  | zero => simp [runWheels]
  | succ n ih =>
    rw [runWheels, handleWheel_zoom _ _ _ _ _ (by rw [runWheels_isEditing]; exact h), ih]
    norm_num [pow_succ, mul_assoc]

/-! ### C9, C3, C4, C7 -/

/-- C9: While an inline edit session is active (`isEditing` set), the
wheel-zoom, mouse-down, mouse-move, touch-start and touch-move handlers
all leave the viewport state (in particular zoom and pan offset)
completely unchanged. -/
theorem claim9_gestures_inert_while_editing
    (sqrtF : ℚ → ℚ) (W H : ℚ) (rect : ClientRect) (s : ViewState)
    (h : s.isEditing = true) :
    (∀ deltaY, handleWheel W H rect deltaY s = s) ∧
    (∀ cx cy, handleMouseDown cx cy s = s) ∧
    (∀ cx cy, handleMouseMove cx cy s = s) ∧
    (∀ onNode touches, handleTouchStart sqrtF W H rect onNode touches s = s) ∧
    (∀ onNode touches, handleTouchMove sqrtF W H rect onNode touches s = s) := by
  refine ⟨fun d => ?_, fun cx cy => ?_, fun cx cy => ?_,
    fun onNode touches => ?_, fun onNode touches => ?_⟩ <;>
    simp [handleWheel, handleMouseDown, handleMouseMove, handleTouchStart,
      handleTouchMove, h]

theorem claim9_witness :
    (∀ deltaY, handleWheel 800 800 rect0 deltaY { initialView with isEditing := true }
        = { initialView with isEditing := true }) ∧
    (∀ cx cy, handleMouseDown cx cy { initialView with isEditing := true }
        = { initialView with isEditing := true }) ∧
    (∀ cx cy, handleMouseMove cx cy { initialView with isEditing := true }
        = { initialView with isEditing := true }) ∧
    (∀ onNode touches, handleTouchStart qzero 800 800 rect0 onNode touches
        { initialView with isEditing := true } = { initialView with isEditing := true }) ∧
    (∀ onNode touches, handleTouchMove qzero 800 800 rect0 onNode touches
        { initialView with isEditing := true } = { initialView with isEditing := true }) :=
  claim9_gestures_inert_while_editing qzero 800 800 rect0 _ rfl

/-- C3: Wheel-zoom anchor stability.  For any viewport state with positive
zoom and editing inactive, any logical point that mapped onto the visual
center of the viewport (the `screenToSvg` image of the bounding
rectangle's midpoint) before `handleWheel` still maps onto that center
afterwards.  A logical point `l` maps to the svg point `offset + l·zoom`. -/
theorem claim3_wheel_anchor_stable
    (W H : ℚ) (rect : ClientRect) (deltaY : ℚ) (s : ViewState)
    (hEdit : s.isEditing = false) (hzoom : 0 < s.zoom) (lx ly : ℚ)
    (hcx : s.offsetX + lx * s.zoom = (screenToSvg W H rect
      (rect.left + rect.width / 2) (rect.top + rect.height / 2)).1)
    (hcy : s.offsetY + ly * s.zoom = (screenToSvg W H rect
      (rect.left + rect.width / 2) (rect.top + rect.height / 2)).2) :
    (handleWheel W H rect deltaY s).offsetX + lx * (handleWheel W H rect deltaY s).zoom
      = (screenToSvg W H rect (rect.left + rect.width / 2) (rect.top + rect.height / 2)).1 ∧
    (handleWheel W H rect deltaY s).offsetY + ly * (handleWheel W H rect deltaY s).zoom
      = (screenToSvg W H rect (rect.left + rect.width / 2) (rect.top + rect.height / 2)).2 := by
  have hz : s.zoom ≠ 0 := ne_of_gt hzoom
  refine ⟨?_, ?_⟩
  · simp only [handleWheel, hEdit, Bool.false_eq_true, if_false]
    rw [← hcx]
    field_simp
  · simp only [handleWheel, hEdit, Bool.false_eq_true, if_false]
    rw [← hcy]
    field_simp

theorem claim3_witness :
    (handleWheel 800 800 rect0 1 initialView).offsetX +
      (screenToSvg 800 800 rect0 (rect0.left + rect0.width / 2)
        (rect0.top + rect0.height / 2)).1 * (handleWheel 800 800 rect0 1 initialView).zoom
      = (screenToSvg 800 800 rect0 (rect0.left + rect0.width / 2)
        (rect0.top + rect0.height / 2)).1 ∧
    (handleWheel 800 800 rect0 1 initialView).offsetY +
      (screenToSvg 800 800 rect0 (rect0.left + rect0.width / 2)
        (rect0.top + rect0.height / 2)).2 * (handleWheel 800 800 rect0 1 initialView).zoom
      = (screenToSvg 800 800 rect0 (rect0.left + rect0.width / 2)
        (rect0.top + rect0.height / 2)).2 :=
  claim3_wheel_anchor_stable 800 800 rect0 1 initialView rfl (by decide) _ _
    (by simp [initialView]) (by simp [initialView])

theorem handleTouchMove_zoom_cases (sqrtF : ℚ → ℚ) (W H : ℚ)
    (rect : ClientRect) (onNode : Bool) (touches : List (ℚ × ℚ))
    (s : ViewState) :
    (handleTouchMove sqrtF W H rect onNode touches s).zoom = s.zoom ∨
    (1 / 10 ≤ (handleTouchMove sqrtF W H rect onNode touches s).zoom ∧
      (handleTouchMove sqrtF W H rect onNode touches s).zoom ≤ 5) := by
  unfold handleTouchMove
  split
  · exact Or.inl rfl
  split
  · exact Or.inl rfl
  split
  · split
    · split
      · exact Or.inl rfl
      · exact Or.inl rfl
    · exact Or.inl rfl
  · split
    · split
      · exact Or.inl rfl
      · refine Or.inr ⟨le_max_left _ _, max_le (by norm_num) (min_le_left _ _)⟩
    · exact Or.inl rfl
  · exact Or.inl rfl

/-- C4 (counterexample): starting from the initial viewport state
(zoom 1), seventeen wheel zoom-in events drive the zoom to
`(11/10)^17 > 5`: the wheel handler applies no clamping at all, so the
zoom does not stay within `[0.1, 5]`. -/
theorem claim4_counterexample :
    5 < (runWheels 800 800 rect0 (-1) initialView 17).zoom := by
  rw [runWheels_zoom_zoomIn 800 800 rect0 initialView rfl 17]
  norm_num [initialView]

/-- C4 (amended): only the pinch-zoom branch of `handleTouchMove` bounds
the zoom, clamping it into the hardcoded interval `[0.1, 5]` (the bounds
are not configurable).  Hence any sequence of touch-move events keeps a
zoom that starts inside `[0.1, 5]` (such as the initial zoom 1) inside
`[0.1, 5]`; wheel-zoom events are not clamped (see the counterexample). -/
theorem claim4_pinch_zoom_bounded (sqrtF : ℚ → ℚ) (W H : ℚ)
    (rect : ClientRect) (s : ViewState) (evs : List TouchMoveEvent)
    (hlo : 1 / 10 ≤ s.zoom) (hhi : s.zoom ≤ 5) :
    1 / 10 ≤ (runTouchMoves sqrtF W H rect s evs).zoom ∧
      (runTouchMoves sqrtF W H rect s evs).zoom ≤ 5 := by
  induction evs generalizing s with
  | nil => exact ⟨hlo, hhi⟩
  | cons ev evs ih =>
    rw [runTouchMoves] at *
    simp only [List.foldl_cons]
    rcases handleTouchMove_zoom_cases sqrtF W H rect ev.onNode ev.touches s with h | h
    · exact ih _ (h ▸ hlo) (h ▸ hhi)
    · exact ih _ h.1 h.2

theorem one_tenth_le_one : (1 : ℚ) / 10 ≤ 1 := by norm_num

theorem one_le_five : (1 : ℚ) ≤ 5 := by norm_num

theorem claim4_witness :
    1 / 10 ≤ (runTouchMoves qzero 800 800 rect0 initialView
        [⟨false, [(0, 0), (2, 2)]⟩]).zoom ∧
      (runTouchMoves qzero 800 800 rect0 initialView
        [⟨false, [(0, 0), (2, 2)]⟩]).zoom ≤ 5 :=
  claim4_pinch_zoom_bounded qzero 800 800 rect0 initialView
    [⟨false, [(0, 0), (2, 2)]⟩] one_tenth_le_one one_le_five

/-- C7: For every tree, `deleteNode` on the root's own id returns failure,
sets the dedicated status message `Cannot delete root node`, and returns
the tree unchanged; a not-found id (one with no parent and different from
the root id) also fails and leaves the tree unchanged but produces no
status message — the two failure outcomes are distinct. -/
theorem claim7_delete_root_rejected (t : JNode) (j : String)
    (hj : findParentById t j = none) (hne : j ≠ t.idOf) :
    deleteNode true t t.idOf = (false, some "Cannot delete root node", t) ∧
    deleteNode true t j = (false, none, t) ∧
    (some "Cannot delete root node" : Option String) ≠ none := by
  refine ⟨?_, ?_, by simp⟩
  · simp [deleteNode]
  · simp [deleteNode, hj, hne]

theorem claim7_witness :
    deleteNode true specTree specTree.idOf
        = (false, some "Cannot delete root node", specTree) ∧
    deleteNode true specTree "zzz" = (false, none, specTree) ∧
    (some "Cannot delete root node" : Option String) ≠ none :=
  claim7_delete_root_rejected specTree "zzz" (by decide) (by decide)

mutual
theorem renameFirst_notFound : ∀ (t : JNode) (i nm : String),
    findNodeById t i = none → renameFirst i nm t = (t, false)
  | .mk d none, i, nm => by
    intro h
    simp only [findNodeById] at h
    by_cases hid : d.id = i
    · simp [hid] at h
    · simp [renameFirst, hid]
  | .mk d (some cs), i, nm => by
    intro h
    simp only [findNodeById] at h
    by_cases hid : d.id = i
    · simp [hid] at h
    · simp only [if_neg hid] at h
      simp [renameFirst, hid, renameFirstList_notFound cs i nm h]
theorem renameFirstList_notFound : ∀ (cs : List JNode) (i nm : String),
    findNodeInList cs i = none → renameFirstList i nm cs = (cs, false)
  | [], _, _ => by intro _; rfl
  | c :: cs, i, nm => by
    intro h
    simp only [findNodeInList] at h
    cases hc : findNodeById c i with
    | some found => rw [hc] at h; simp at h
    | none =>
      rw [hc] at h
      simp [renameFirstList, renameFirst_notFound c i nm hc,
        renameFirstList_notFound cs i nm h]
end

mutual
theorem renameFirst_found : ∀ (t : JNode) (i nm : String) (n : JNode),
    findNodeById t i = some n →
    (renameFirst i nm t).2 = true ∧
    findNodeById (renameFirst i nm t).1 i
      = some (.mk { n.dat with name := nm } n.children)
  | .mk d none, i, nm, n => by
    intro h
    by_cases hid : d.id = i
    · have hn : n = .mk d none := by
        simp only [findNodeById, if_pos hid] at h
        exact (Option.some.inj h).symm
      subst hn
      refine ⟨by simp [renameFirst, hid], ?_⟩
      simp [renameFirst, findNodeById, hid, JNode.dat, JNode.children]
    · simp [findNodeById, hid] at h
  | .mk d (some children), i, nm, n => by
    intro h
    by_cases hid : d.id = i
    · have hn : n = .mk d (some children) := by
        simp only [findNodeById, if_pos hid] at h
        exact (Option.some.inj h).symm
      subst hn
      refine ⟨by simp [renameFirst, hid], ?_⟩
      simp [renameFirst, findNodeById, hid, JNode.dat, JNode.children]
    · simp only [findNodeById, if_neg hid] at h
      have ih := renameFirstList_found children i nm n h
      refine ⟨by simp [renameFirst, hid, ih.1], ?_⟩
      simp [renameFirst, findNodeById, hid, ih.2]
theorem renameFirstList_found : ∀ (cs : List JNode) (i nm : String) (n : JNode),
    findNodeInList cs i = some n →
    (renameFirstList i nm cs).2 = true ∧
    findNodeInList (renameFirstList i nm cs).1 i
      = some (.mk { n.dat with name := nm } n.children)
  | [], i, nm, n => by intro h; simp [findNodeInList] at h
  | c :: cs, i, nm, n => by
    intro h
    simp only [findNodeInList] at h
    cases hc : findNodeById c i with
    | some found =>
      rw [hc] at h
      have hn : found = n := Option.some.inj h
      subst hn
      have ih := renameFirst_found c i nm found hc
      refine ⟨by simp [renameFirstList, ih.1], ?_⟩
      simp [renameFirstList, ih.1, findNodeInList, ih.2]
    | none =>
      rw [hc] at h
      have hnc := renameFirst_notFound c i nm hc
      have ih := renameFirstList_found cs i nm n h
      refine ⟨by simp [renameFirstList, hnc, ih.1], ?_⟩
      simp [renameFirstList, hnc, findNodeInList, hc, ih.2]
end

/-- C6 (amended): `renameNode` fails and leaves the tree unchanged when
the id is not found; when the id is found it succeeds and stores
`newName || 'Unnamed'` — the placeholder is used exactly when `newName`
is the empty string, with no trimming, so a whitespace-only name is
stored verbatim (see the counterexample). -/
theorem claim6_rename_semantics (t : JNode) (i nm : String) (n : JNode)
    (hfound : findNodeById t i = some n) (t' : JNode) (j : String)
    (hmiss : findNodeById t' j = none) :
    (renameNode true t i nm).1 = true ∧
    findNodeById (renameNode true t i nm).2 i
      = some (.mk { n.dat with name := if nm = "" then "Unnamed" else nm } n.children) ∧
    renameNode true t' j nm = (false, t') := by
  have hname : jsOrElse (some nm) "Unnamed" = if nm = "" then "Unnamed" else nm := rfl
  refine ⟨by simp [renameNode, hfound], ?_, by simp [renameNode, hmiss]⟩
  have := (renameFirst_found t i (jsOrElse (some nm) "Unnamed") n hfound).2
  simpa [renameNode, hfound, hname] using this

/-- C6 (counterexample): the claim predicts that renaming with the
whitespace-only string `" "` stores the placeholder; the code stores the
whitespace string itself (`newName || 'Unnamed'` does not trim). -/
theorem claim6_counterexample :
    (renameNode true soloTree "a" " ").2 = .mk { id := "a", name := " " } none ∧
    " " ≠ "Unnamed" := by
  exact ⟨by decide, by decide⟩

theorem claim6_witness :
    (renameNode true soloTree "a" "").1 = true ∧
    findNodeById (renameNode true soloTree "a" "").2 "a"
      = some (.mk { soloTree.dat with name := if "" = "" then "Unnamed" else "" }
          soloTree.children) ∧
    renameNode true soloTree "zzz" "" = (false, soloTree) :=
  claim6_rename_semantics soloTree "a" "" soloTree (by decide) soloTree "zzz" (by decide)

/-- C10: The empty-name placeholder differs by operation.  With the target
found, `addChild`/`addSibling` called with a missing or empty name insert
a freshly generated node named `New Node`, while `renameNode` with the
empty name stores `Unnamed`; the two placeholder strings are distinct. -/
theorem claim10_placeholder_defaults (st : MapState) (pid sid : String)
    (nm : Option String) (q r : JNode)
    (hpid : findNodeById st.treeData pid = some q)
    (hsid : findParentById st.treeData sid = some r)
    (hnm : nm = none ∨ nm = some "")
    (t : JNode) (i : String) (n : JNode)
    (hfind : findNodeById t i = some n) :
    addChild true st pid nm = (true, ⟨(pushChild pid
        (.mk { id := generateId st.nodeIdCounter, name := "New Node" } none)
        st.treeData).1, st.nodeIdCounter + 1⟩) ∧
    addSibling true st sid nm = (true, ⟨(spliceSibling sid
        (.mk { id := generateId st.nodeIdCounter, name := "New Node" } none)
        st.treeData).1, st.nodeIdCounter + 1⟩) ∧
    findNodeById (renameNode true t i "").2 i
      = some (.mk { n.dat with name := "Unnamed" } n.children) ∧
    "New Node" ≠ "Unnamed" := by
  have hdef : jsOrElse nm "New Node" = "New Node" := by
    rcases hnm with h | h <;> simp [h, jsOrElse]
  refine ⟨?_, ?_, ?_, by decide⟩
  · simp [addChild, hpid, hdef]
  · simp [addSibling, hsid, hdef]
  · have h2 := (renameFirst_found t i (jsOrElse (some "") "Unnamed") n hfind).2
    simpa [renameNode, hfind, jsOrElse] using h2

theorem claim10_witness :
    addChild true ⟨specTree, 0⟩ "root" none = (true, ⟨(pushChild "root"
        (.mk { id := generateId (0 : ℕ), name := "New Node" } none)
        specTree).1, 0 + 1⟩) ∧
    addSibling true ⟨specTree, 0⟩ "a" none = (true, ⟨(spliceSibling "a"
        (.mk { id := generateId (0 : ℕ), name := "New Node" } none)
        specTree).1, 0 + 1⟩) ∧
    findNodeById (renameNode true soloTree "a" "").2 "a"
      = some (.mk { soloTree.dat with name := "Unnamed" } soloTree.children) ∧
    "New Node" ≠ "Unnamed" :=
  claim10_placeholder_defaults ⟨specTree, 0⟩ "root" "a" none specTree specTree
    (by decide) (by decide) (Or.inl rfl) soloTree "a" soloTree (by decide)

mutual
theorem jsonRoundtrip_id : ∀ t : JNode, jsonRoundtrip t = t
  | .mk _ none => rfl
  | .mk d (some cs) => by rw [jsonRoundtrip, jsonRoundtripList_id cs]
theorem jsonRoundtripList_id : ∀ cs : List JNode, jsonRoundtripList cs = cs
  | [] => rfl
  | c :: cs => by rw [jsonRoundtripList, jsonRoundtrip_id c, jsonRoundtripList_id cs]
end

/-- The JSON round trip of `getData` is a plain structural copy: every
field present in the stored tree, transient or persisted, survives it. -/
theorem getData_eq_treeData (t : JNode) : getData t = t :=
  jsonRoundtrip_id t

/-- C5: after `setData` (which renders), `getData` returns a tree whose
root still carries the transient `_leafCount`, `_isRoot`, `_depth` and
`_x` fields: the `JSON.parse(JSON.stringify(...))` deep clone serializes
the underscore-prefixed properties, contradicting the claim (and the
repository's own `getData` documentation) that the transient layout-only
fields are excluded. -/
theorem claim5_transient_fields_serialized :
    (getData (setData qzero qzero 120 800 800 0 specTree)).dat.leafCount = some 2 ∧
    (getData (setData qzero qzero 120 800 800 0 specTree)).dat.isRoot = some true ∧
    (getData (setData qzero qzero 120 800 800 0 specTree)).dat.depth = some 0 ∧
    (getData (setData qzero qzero 120 800 800 0 specTree)).dat.x ≠ none := by
  exact ⟨by decide, by decide, by decide, by decide⟩

theorem childIntervals_forall2 (s e : ℚ) (L : ℕ) : ∀ (cs : List JNode) (a : ℚ),
    List.Forall₂ (fun iv c => iv.2 - iv.1 = (e - s) * ((c.lcField : ℚ) / (L : ℚ)))
      (childIntervals s e L cs a) cs
  | [], _ => List.Forall₂.nil
  | c :: cs, a => by
    rw [childIntervals]
    exact List.Forall₂.cons (by simp [spanOf]) (childIntervals_forall2 s e L cs _)

theorem childIntervals_head (s e : ℚ) (L : ℕ) (cs : List JNode) (a : ℚ)
    (h : cs ≠ []) :
    (childIntervals s e L cs a).head?.map Prod.fst = some a := by
  cases cs with
  | nil => exact absurd rfl h
  | cons c cs => rw [childIntervals]; rfl

theorem childIntervals_chain (s e : ℚ) (L : ℕ) : ∀ (cs : List JNode) (a : ℚ),
    List.Chain' (fun p q => p.2 = q.1) (childIntervals s e L cs a)
  | [], _ => List.chain'_nil
  | c :: cs, a => by
    rw [childIntervals]
    refine List.chain'_cons'.mpr ⟨?_, childIntervals_chain s e L cs _⟩
    intro q hq
    cases cs with
    | nil => simp [childIntervals] at hq
    | cons c' cs' =>
      simp only [childIntervals, List.head?_cons, Option.mem_def,
        Option.some.injEq] at hq
      rw [← hq]

theorem childIntervals_sum (s e : ℚ) (L : ℕ) : ∀ (cs : List JNode) (a : ℚ),
    ((childIntervals s e L cs a).map fun iv => iv.2 - iv.1).sum
      = (e - s) * (((cs.map fun c => (c.lcField : ℚ)).sum) / (L : ℚ))
  | [], _ => by simp [childIntervals]
  | c :: cs, a => by
    rw [childIntervals]
    simp only [List.map_cons, List.sum_cons, childIntervals_sum s e L cs]
    rw [spanOf]
    ring

theorem childIntervals_nonneg (s e : ℚ) (L : ℕ) (hse : s ≤ e) :
    ∀ (cs : List JNode) (a : ℚ) (iv : ℚ × ℚ),
    iv ∈ childIntervals s e L cs a → iv.1 ≤ iv.2
  | [], _, iv => by simp [childIntervals]
  | c :: cs, a, iv => by
    rw [childIntervals]
    intro hmem
    rcases List.mem_cons.mp hmem with h | h
    · subst h
      have hnn : 0 ≤ spanOf s e L c := by
        rw [spanOf]
        exact mul_nonneg (by linarith) (div_nonneg (Nat.cast_nonneg _) (Nat.cast_nonneg _))
      simp only
      linarith
    · exact childIntervals_nonneg s e L hse cs _ iv h

theorem lcSum_eq_leavesList : ∀ cs : List JNode,
    (∀ c ∈ cs, c.lcField = leaves c) →
    (cs.map fun c => (c.lcField : ℚ)).sum = (leavesList cs : ℚ)
  | [], _ => by simp [leavesList]
  | c :: cs, h => by
    simp only [List.map_cons, List.sum_cons, leavesList]
    rw [h c (by simp), lcSum_eq_leavesList cs (fun c' hc => h c' (by simp [hc]))]
    push_cast
    ring

mutual
theorem leaves_pos : ∀ t : JNode, 1 ≤ leaves t
  | .mk _ none => le_refl 1
  | .mk _ (some cs) => by
    rw [leaves]
    by_cases h : cs.isEmpty
    · simp [h]
    · rw [if_neg h]
      cases cs with
      | nil => simp at h
      | cons c cs' => exact leavesList_pos_cons c cs'
theorem leavesList_pos_cons : ∀ (c : JNode) (cs : List JNode), 1 ≤ leavesList (c :: cs)
  | c, cs => by
    rw [leavesList]
    have := leaves_pos c
    omega
end

theorem layoutChildren_zip (cosF sinF : ℚ → ℚ) (rs w h : ℚ) (L : ℕ)
    (s e : ℚ) (dep : ℕ) : ∀ (cs : List JNode) (a : ℚ),
    layoutChildren cosF sinF rs w h L s e dep cs a
      = (cs.zip (childIntervals s e L cs a)).map
          fun pr => layout cosF sinF rs w h pr.1 pr.2.1 pr.2.2 (dep + 1)
  | [], _ => rfl
  | c :: cs, a => by
    rw [layoutChildren, childIntervals]
    simp only [List.zip_cons_cons, List.map_cons]
    rw [layoutChildren_zip cosF sinF rs w h L s e dep cs]

/-- C1: Angular partition invariant.  For an annotated node (its stored
`_leafCount` is the annotator's value, likewise for its children) with a
non-empty child list and an assigned interval `[s, e]`, the child loop of
`layout` assigns the children the intervals `childIntervals`: in child
order, each of width `(e - s) * (childLeafCount / parentLeafCount)`,
starting at `s`, contiguous with no gaps (each interval begins where the
previous one ends), with non-negative widths (hence non-overlapping), and
with widths summing exactly to `e - s`; moreover `layout` itself recurses
on the children with exactly these intervals at depth one greater. -/
theorem claim1_angular_partition
    (cosF sinF : ℚ → ℚ) (rs w h : ℚ) (dep : ℕ)
    (d : NodeData) (cs : List JNode) (s e : ℚ)
    (hlc : d.leafCount = some (leaves (.mk d (some cs))))
    (hchild : ∀ c ∈ cs, c.lcField = leaves c)
    (hne : cs ≠ []) (hse : s ≤ e) :
    List.Forall₂ (fun iv c => iv.2 - iv.1
        = (e - s) * ((c.lcField : ℚ) / ((JNode.mk d (some cs)).lcField : ℚ)))
      (childIntervals s e (d.leafCount.getD 0) cs s) cs ∧
    (childIntervals s e (d.leafCount.getD 0) cs s).head?.map Prod.fst = some s ∧
    List.Chain' (fun p q => p.2 = q.1) (childIntervals s e (d.leafCount.getD 0) cs s) ∧
    ((childIntervals s e (d.leafCount.getD 0) cs s).map fun iv => iv.2 - iv.1).sum
      = e - s ∧
    (∀ iv ∈ childIntervals s e (d.leafCount.getD 0) cs s, iv.1 ≤ iv.2) ∧
    layout cosF sinF rs w h (.mk d (some cs)) s e dep
      = .mk { d with x := some (w / 2 + (dep : ℚ) * rs * cosF ((s + e) / 2)),
                     y := some (h / 2 + (dep : ℚ) * rs * sinF ((s + e) / 2)),
                     angle := some ((s + e) / 2), depth := some dep }
          (some ((cs.zip (childIntervals s e (d.leafCount.getD 0) cs s)).map
            fun pr => layout cosF sinF rs w h pr.1 pr.2.1 pr.2.2 (dep + 1))) := by
  have hemp : cs.isEmpty = false := by
    cases cs with
    | nil => exact absurd rfl hne
    | cons c cs' => rfl
  have hLval : d.leafCount.getD 0 = leavesList cs := by
    rw [hlc, Option.getD_some, leaves, hemp]
    simp
  have hLpos : 1 ≤ leavesList cs := by
    cases cs with
    | nil => exact absurd rfl hne
    | cons c cs' => exact leavesList_pos_cons c cs'
  have hcast : ((leavesList cs : ℚ)) ≠ 0 := by
    exact_mod_cast (by omega : leavesList cs ≠ 0)
  refine ⟨childIntervals_forall2 s e _ cs s,
    childIntervals_head s e _ cs s hne,
    childIntervals_chain s e _ cs s, ?_, ?_, ?_⟩
  · rw [childIntervals_sum, lcSum_eq_leavesList cs hchild, hLval, div_self hcast,
      mul_one]
  · exact fun iv hiv => childIntervals_nonneg s e _ hse cs s iv hiv
  · rw [layout]
    simp only [hemp, Bool.false_eq_true, if_false]
    rw [layoutChildren_zip]

theorem claim1_witness :
    List.Forall₂ (fun (iv : ℚ × ℚ) (c : JNode) => iv.2 - iv.1
        = ((1 : ℚ) - 0) * ((c.lcField : ℚ) / ((2 : ℕ) : ℚ)))
      (childIntervals 0 1 2
        [.mk { id := "a", name := "A", leafCount := some 1, isLeaf := some true } none,
         .mk { id := "b", name := "B", leafCount := some 1, isLeaf := some false }
           (some [.mk { id := "b1", name := "B1", leafCount := some 1, isLeaf := some true } none])] 0)
      ([.mk { id := "a", name := "A", leafCount := some 1, isLeaf := some true } none,
        .mk { id := "b", name := "B", leafCount := some 1, isLeaf := some false }
          (some [.mk { id := "b1", name := "B1", leafCount := some 1, isLeaf := some true } none])] : List JNode) ∧
    (childIntervals 0 1 2
        [.mk { id := "a", name := "A", leafCount := some 1, isLeaf := some true } none,
         .mk { id := "b", name := "B", leafCount := some 1, isLeaf := some false }
           (some [.mk { id := "b1", name := "B1", leafCount := some 1, isLeaf := some true } none])] 0).head?.map
      Prod.fst = some 0 ∧
    List.Chain' (fun p q => p.2 = q.1)
      (childIntervals 0 1 2
        [.mk { id := "a", name := "A", leafCount := some 1, isLeaf := some true } none,
         .mk { id := "b", name := "B", leafCount := some 1, isLeaf := some false }
           (some [.mk { id := "b1", name := "B1", leafCount := some 1, isLeaf := some true } none])] 0) ∧
    ((childIntervals 0 1 2
        [.mk { id := "a", name := "A", leafCount := some 1, isLeaf := some true } none,
         .mk { id := "b", name := "B", leafCount := some 1, isLeaf := some false }
           (some [.mk { id := "b1", name := "B1", leafCount := some 1, isLeaf := some true } none])] 0).map
      fun iv => iv.2 - iv.1).sum = 1 - 0 ∧
    (∀ iv ∈ childIntervals 0 1 2
        [.mk { id := "a", name := "A", leafCount := some 1, isLeaf := some true } none,
         .mk { id := "b", name := "B", leafCount := some 1, isLeaf := some false }
           (some [.mk { id := "b1", name := "B1", leafCount := some 1, isLeaf := some true } none])] 0,
      iv.1 ≤ iv.2) ∧
    layout qzero qzero 120 800 800
      (.mk { id := "root", name := "R", leafCount := some 2, isLeaf := some false }
        (some [.mk { id := "a", name := "A", leafCount := some 1, isLeaf := some true } none,
          .mk { id := "b", name := "B", leafCount := some 1, isLeaf := some false }
            (some [.mk { id := "b1", name := "B1", leafCount := some 1, isLeaf := some true } none])]))
      0 1 1
      = .mk { id := "root", name := "R", leafCount := some 2, isLeaf := some false,
              x := some (800 / 2 + ((1 : ℕ) : ℚ) * 120 * qzero (((0 : ℚ) + 1) / 2)),
              y := some (800 / 2 + ((1 : ℕ) : ℚ) * 120 * qzero (((0 : ℚ) + 1) / 2)),
              angle := some (((0 : ℚ) + 1) / 2), depth := some 1 }
          (some (([.mk { id := "a", name := "A", leafCount := some 1, isLeaf := some true } none,
            .mk { id := "b", name := "B", leafCount := some 1, isLeaf := some false }
              (some [.mk { id := "b1", name := "B1", leafCount := some 1, isLeaf := some true } none])].zip
            (childIntervals 0 1 2
              [.mk { id := "a", name := "A", leafCount := some 1, isLeaf := some true } none,
               .mk { id := "b", name := "B", leafCount := some 1, isLeaf := some false }
                 (some [.mk { id := "b1", name := "B1", leafCount := some 1, isLeaf := some true } none])] 0)).map
            fun pr => layout qzero qzero 120 800 800 pr.1 pr.2.1 pr.2.2 (1 + 1))) :=
  claim1_angular_partition qzero qzero 120 800 800 1
    { id := "root", name := "R", leafCount := some 2, isLeaf := some false }
    [.mk { id := "a", name := "A", leafCount := some 1, isLeaf := some true } none,
     .mk { id := "b", name := "B", leafCount := some 1, isLeaf := some false }
       (some [.mk { id := "b1", name := "B1", leafCount := some 1, isLeaf := some true } none])]
    0 1 (by decide) (by decide) (by decide) (by decide)

theorem layout_subtree (cosF sinF : ℚ → ℚ) (rs w h : ℚ) (p : List ℕ) :
    ∀ (t : JNode) (s e : ℚ) (dep : ℕ) (n : JNode),
    subtreeAt p (layout cosF sinF rs w h t s e dep) = some n →
    ∃ s' e', IntervalAt p t s e = some (s', e') ∧
      n.dat.angle = some ((s' + e') / 2) ∧
      n.dat.depth = some (dep + p.length) ∧
      n.dat.x = some (w / 2 + (((dep + p.length : ℕ)) : ℚ) * rs * cosF ((s' + e') / 2)) ∧
      n.dat.y = some (h / 2 + (((dep + p.length : ℕ)) : ℚ) * rs * sinF ((s' + e') / 2)) := by
  induction p with
  | nil =>
    intro t s e dep n hsub
    rw [subtreeAt] at hsub
    obtain rfl := Option.some.inj hsub
    refine ⟨s, e, rfl, ?_⟩
    cases t with
    | mk d cs =>
      cases cs with
      | none => simp [layout, JNode.dat]
      | some children =>
        by_cases hemp : children.isEmpty <;> simp [layout, hemp, JNode.dat]
  | cons i p ih =>
    intro t s e dep n hsub
    cases t with
    | mk d cs =>
      cases cs with
      | none =>
        rw [layout] at hsub
        simp [subtreeAt] at hsub
      | some children =>
        by_cases hemp : children.isEmpty
        · have hnil : children = [] := List.isEmpty_iff.mp hemp
          subst hnil
          rw [layout] at hsub
          simp [subtreeAt] at hsub
        · rw [layout] at hsub
          simp only [hemp, Bool.false_eq_true, if_false] at hsub
          rw [subtreeAt] at hsub
          rw [layoutChildren_zip] at hsub
          rw [List.get?_map] at hsub
          cases hz : (children.zip (childIntervals s e (d.leafCount.getD 0)
              children s)).get? i with
          | none => rw [hz] at hsub; simp at hsub
          | some pr =>
            rw [hz] at hsub
            simp only [Option.map_some'] at hsub
            obtain ⟨hc, hiv⟩ := (List.get?_zip_eq_some _ _ _ _).mp hz
            obtain ⟨s', e', hint, hang, hdep, hx, hy⟩ :=
              ih pr.1 pr.2.1 pr.2.2 (dep + 1) n hsub
            refine ⟨s', e', ?_, hang, ?_, ?_, ?_⟩
            · rw [IntervalAt]
              simp only [hc, hiv]
              exact hint
            · rw [hdep]
              congr 1
              simp only [List.length_cons]
              omega
            · have harith : dep + 1 + p.length = dep + (i :: p).length := by
                simp only [List.length_cons]; omega
              rw [harith] at hx
              exact hx
            · have harith : dep + 1 + p.length = dep + (i :: p).length := by
                simp only [List.length_cons]; omega
              rw [harith] at hy
              exact hy

/-- C2: For every tree laid out by `layoutRoot`, the root itself sits at
the canvas center `(w/2, h/2)` with depth 0 (and angle 0, marked root);
every other node — reached by a non-empty child-index path — has angle
equal to the exact midpoint of its assigned angular interval (as computed
by `IntervalAt` from the root budget), depth equal to its distance from
the root, and Cartesian position `center + (depth * radiusStep) *
(cos angle, sin angle)`. -/
theorem claim2_node_placement (cosF sinF : ℚ → ℚ) (rs w h piQ : ℚ)
    (t : JNode) (p : List ℕ) (n : JNode)
    (hp : subtreeAt p (layoutRoot cosF sinF rs w h piQ t) = some n) :
    (p = [] → n.dat.x = some (w / 2) ∧ n.dat.y = some (h / 2) ∧
      n.dat.depth = some 0 ∧ n.dat.angle = some 0 ∧ n.dat.isRoot = some true) ∧
    (p ≠ [] → ∃ s' e',
      IntervalAt p t (rootBudget piQ).1 (rootBudget piQ).2 = some (s', e') ∧
      n.dat.angle = some ((s' + e') / 2) ∧
      n.dat.depth = some p.length ∧
      n.dat.x = some (w / 2 + ((p.length : ℕ) : ℚ) * rs * cosF ((s' + e') / 2)) ∧
      n.dat.y = some (h / 2 + ((p.length : ℕ) : ℚ) * rs * sinF ((s' + e') / 2))) := by
  cases p with
  | nil =>
    refine ⟨fun _ => ?_, fun hne => absurd rfl hne⟩
    rw [subtreeAt] at hp
    obtain rfl := Option.some.inj hp
    cases t with
    | mk d cs =>
      cases cs with
      | none => simp [layoutRoot, JNode.dat]
      | some children => simp [layoutRoot, JNode.dat]
  | cons i p' =>
    refine ⟨fun heq => by simp at heq, fun _ => ?_⟩
    cases t with
    | mk d cs =>
      cases cs with
      | none =>
        rw [layoutRoot] at hp
        simp [subtreeAt] at hp
      | some children =>
        rw [layoutRoot] at hp
        rw [subtreeAt] at hp
        rw [layoutChildren_zip] at hp
        rw [List.get?_map] at hp
        cases hz : (children.zip (childIntervals (rootBudget piQ).1
            (rootBudget piQ).2 (d.leafCount.getD 0) children
            (rootBudget piQ).1)).get? i with
        | none => rw [hz] at hp; simp at hp
        | some pr =>
          rw [hz] at hp
          simp only [Option.map_some'] at hp
          obtain ⟨hc, hiv⟩ := (List.get?_zip_eq_some _ _ _ _).mp hz
          obtain ⟨s', e', hint, hang, hdep, hx, hy⟩ :=
            layout_subtree cosF sinF rs w h p' pr.1 pr.2.1 pr.2.2 (0 + 1) n hp
          refine ⟨s', e', ?_, hang, ?_, ?_, ?_⟩
          · rw [IntervalAt]
            simp only [hc, hiv]
            exact hint
          · rw [hdep]
            congr 1
            simp only [List.length_cons]
            omega
          · have harith : 0 + 1 + p'.length = (i :: p').length := by
              simp only [List.length_cons]; omega
            rw [harith] at hx
            exact hx
          · have harith : 0 + 1 + p'.length = (i :: p').length := by
              simp only [List.length_cons]; omega
            rw [harith] at hy
            exact hy

theorem claim2_witness :
    (([0] : List ℕ) = [] →
      (layout qzero qzero 120 800 800
          (JNode.mk { id := "a", name := "A", leafCount := some 1, isLeaf := some true } none)
          (rootBudget 0).1
          ((rootBudget 0).1 + spanOf (rootBudget 0).1 (rootBudget 0).2 2
            (JNode.mk { id := "a", name := "A", leafCount := some 1, isLeaf := some true } none))
          (0 + 1)).dat.x = some (800 / 2) ∧
      (layout qzero qzero 120 800 800
          (JNode.mk { id := "a", name := "A", leafCount := some 1, isLeaf := some true } none)
          (rootBudget 0).1
          ((rootBudget 0).1 + spanOf (rootBudget 0).1 (rootBudget 0).2 2
            (JNode.mk { id := "a", name := "A", leafCount := some 1, isLeaf := some true } none))
          (0 + 1)).dat.y = some (800 / 2) ∧
      (layout qzero qzero 120 800 800
          (JNode.mk { id := "a", name := "A", leafCount := some 1, isLeaf := some true } none)
          (rootBudget 0).1
          ((rootBudget 0).1 + spanOf (rootBudget 0).1 (rootBudget 0).2 2
            (JNode.mk { id := "a", name := "A", leafCount := some 1, isLeaf := some true } none))
          (0 + 1)).dat.depth = some 0 ∧
      (layout qzero qzero 120 800 800
          (JNode.mk { id := "a", name := "A", leafCount := some 1, isLeaf := some true } none)
          (rootBudget 0).1
          ((rootBudget 0).1 + spanOf (rootBudget 0).1 (rootBudget 0).2 2
            (JNode.mk { id := "a", name := "A", leafCount := some 1, isLeaf := some true } none))
          (0 + 1)).dat.angle = some 0 ∧
      (layout qzero qzero 120 800 800
          (JNode.mk { id := "a", name := "A", leafCount := some 1, isLeaf := some true } none)
          (rootBudget 0).1
          ((rootBudget 0).1 + spanOf (rootBudget 0).1 (rootBudget 0).2 2
            (JNode.mk { id := "a", name := "A", leafCount := some 1, isLeaf := some true } none))
          (0 + 1)).dat.isRoot = some true) ∧
    (([0] : List ℕ) ≠ [] → ∃ s' e',
      IntervalAt [0] specTreeAnnotated (rootBudget 0).1 (rootBudget 0).2 = some (s', e') ∧
      (layout qzero qzero 120 800 800
          (JNode.mk { id := "a", name := "A", leafCount := some 1, isLeaf := some true } none)
          (rootBudget 0).1
          ((rootBudget 0).1 + spanOf (rootBudget 0).1 (rootBudget 0).2 2
            (JNode.mk { id := "a", name := "A", leafCount := some 1, isLeaf := some true } none))
          (0 + 1)).dat.angle = some ((s' + e') / 2) ∧
      (layout qzero qzero 120 800 800
          (JNode.mk { id := "a", name := "A", leafCount := some 1, isLeaf := some true } none)
          (rootBudget 0).1
          ((rootBudget 0).1 + spanOf (rootBudget 0).1 (rootBudget 0).2 2
            (JNode.mk { id := "a", name := "A", leafCount := some 1, isLeaf := some true } none))
          (0 + 1)).dat.depth = some ([0] : List ℕ).length ∧
      (layout qzero qzero 120 800 800
          (JNode.mk { id := "a", name := "A", leafCount := some 1, isLeaf := some true } none)
          (rootBudget 0).1
          ((rootBudget 0).1 + spanOf (rootBudget 0).1 (rootBudget 0).2 2
            (JNode.mk { id := "a", name := "A", leafCount := some 1, isLeaf := some true } none))
          (0 + 1)).dat.x = some (800 / 2 + ((([0] : List ℕ).length : ℕ) : ℚ) * 120 * qzero ((s' + e') / 2)) ∧
      (layout qzero qzero 120 800 800
          (JNode.mk { id := "a", name := "A", leafCount := some 1, isLeaf := some true } none)
          (rootBudget 0).1
          ((rootBudget 0).1 + spanOf (rootBudget 0).1 (rootBudget 0).2 2
            (JNode.mk { id := "a", name := "A", leafCount := some 1, isLeaf := some true } none))
          (0 + 1)).dat.y = some (800 / 2 + ((([0] : List ℕ).length : ℕ) : ℚ) * 120 * qzero ((s' + e') / 2))) :=
  claim2_node_placement qzero qzero 120 800 800 0 specTreeAnnotated [0]
    (layout qzero qzero 120 800 800
      (JNode.mk { id := "a", name := "A", leafCount := some 1, isLeaf := some true } none)
      (rootBudget 0).1
      ((rootBudget 0).1 + spanOf (rootBudget 0).1 (rootBudget 0).2 2
        (JNode.mk { id := "a", name := "A", leafCount := some 1, isLeaf := some true } none))
      (0 + 1)) rfl

theorem decDigitsAux_nil : ∀ (f m : ℕ), m ≤ f → decDigitsAux f m = [] → m = 0
  | _, 0, _, _ => rfl
  | 0, m + 1, hle, _ => by omega
  | _ + 1, _ + 1, _, h => by simp [decDigitsAux] at h

theorem decDigitsAux_inj : ∀ (f1 m1 : ℕ), m1 ≤ f1 → ∀ (f2 m2 : ℕ), m2 ≤ f2 →
    decDigitsAux f1 m1 = decDigitsAux f2 m2 → m1 = m2 := by
  intro f1
  induction f1 with
  | zero =>
    intro m1 h1 f2 m2 h2 heq
    have hm1 : m1 = 0 := by omega
    subst hm1
    have : decDigitsAux f2 m2 = [] := by
      rw [← heq]
      rfl
    exact (decDigitsAux_nil f2 m2 h2 this).symm
  | succ f1 ih =>
    intro m1 h1 f2 m2 h2 heq
    cases m1 with
    | zero =>
      have : decDigitsAux f2 m2 = [] := by rw [← heq]; rfl
      exact (decDigitsAux_nil f2 m2 h2 this).symm
    | succ a =>
      cases m2 with
      | zero => simp [decDigitsAux] at heq
      | succ b =>
        cases f2 with
        | zero => omega
        | succ f2 =>
          simp only [decDigitsAux, List.cons.injEq] at heq
          obtain ⟨hmod, htail⟩ := heq
          have hdiva : (a + 1) / 10 ≤ f1 := by omega
          have hdivb : (b + 1) / 10 ≤ f2 := by omega
          have hdiv := ih ((a + 1) / 10) hdiva f2 ((b + 1) / 10) hdivb htail
          omega

theorem decDigitsAux_lt : ∀ (f m d : ℕ), d ∈ decDigitsAux f m → d < 10
  | _, 0, d, h => by simp [decDigitsAux] at h
  | 0, _ + 1, d, h => by simp [decDigitsAux] at h
  | f + 1, m + 1, d, h => by
    simp only [decDigitsAux, List.mem_cons] at h
    rcases h with h | h
    · omega
    · exact decDigitsAux_lt f ((m + 1) / 10) d h

theorem digitChar_inj_lt : ∀ a < 10, ∀ b < 10,
    Nat.digitChar a = Nat.digitChar b → a = b := by decide

theorem map_digitChar_inj : ∀ (l1 l2 : List ℕ),
    (∀ d ∈ l1, d < 10) → (∀ d ∈ l2, d < 10) →
    l1.map Nat.digitChar = l2.map Nat.digitChar → l1 = l2
  | [], [], _, _, _ => rfl
  | [], _ :: _, _, _, h => by simp at h
  | _ :: _, [], _, _, h => by simp at h
  | a :: l1, b :: l2, ha, hb, h => by
    simp only [List.map_cons, List.cons.injEq] at h
    obtain ⟨hd, htail⟩ := h
    have := digitChar_inj_lt a (ha a (by simp)) b (hb b (by simp)) hd
    rw [this, map_digitChar_inj l1 l2 (fun d hd' => ha d (by simp [hd']))
      (fun d hd' => hb d (by simp [hd'])) htail]

theorem natToString_inj : ∀ m n : ℕ, natToString m = natToString n → m = n := by
  have digits_of_eq : ∀ m n : ℕ, m ≠ 0 → n ≠ 0 →
      natToString m = natToString n → m = n := by
    intro m n hm hn h
    rw [natToString, natToString, if_neg hm, if_neg hn] at h
    have hdata := congrArg String.data h
    simp only [String.mk] at hdata
    have hrev := List.reverse_injective hdata
    have hmap := map_digitChar_inj (decDigits m) (decDigits n)
      (fun d hd => decDigitsAux_lt m m d hd) (fun d hd => decDigitsAux_lt n n d hd) hrev
    exact decDigitsAux_inj m m (le_refl m) n n (le_refl n) hmap
  have zero_case : ∀ n : ℕ, n ≠ 0 → natToString 0 ≠ natToString n := by
    intro n hn h
    rw [natToString, natToString, if_pos rfl, if_neg hn] at h
    have hdata := congrArg String.data h
    simp only [String.mk] at hdata
    have h0 : ([ '0' ] : List Char).reverse = (((decDigits n).map Nat.digitChar).reverse).reverse := by
      rw [← hdata]
    simp only [List.reverse_reverse, List.reverse_singleton] at h0
    have hsingle : decDigits n = [0] := by
      apply map_digitChar_inj
      · exact fun d hd => decDigitsAux_lt n n d hd
      · intro d hd
        simp at hd
        omega
      · rw [← h0]
        rfl
    cases n with
    | zero => exact hn rfl
    | succ k =>
      rw [decDigits, decDigitsAux] at hsingle
      simp only [List.cons.injEq] at hsingle
      obtain ⟨hmod, hnil⟩ := hsingle
      have := decDigitsAux_nil k ((k + 1) / 10) (by omega) hnil
      omega
  intro m n h
  by_cases hm : m = 0
  · by_cases hn : n = 0
    · rw [hm, hn]
    · exact absurd (hm ▸ h) (zero_case n hn)
  · by_cases hn : n = 0
    · exact absurd (hn ▸ h.symm) (zero_case m hm)
    · exact digits_of_eq m n hm hn h

theorem generateId_inj : ∀ c1 c2 : ℕ, generateId c1 = generateId c2 → c1 = c2 := by
  intro c1 c2 h
  rw [generateId, generateId] at h
  have hdata := congrArg String.data h
  rw [String.data_append, String.data_append] at hdata
  have := List.append_cancel_left hdata
  have hstr : natToString (c1 + 1) = natToString (c2 + 1) := String.ext this
  have := natToString_inj (c1 + 1) (c2 + 1) hstr
  omega

theorem natToString_length_pos : ∀ n : ℕ, 1 ≤ (natToString n).length
  | 0 => by decide
  | n + 1 => by
    rw [natToString, if_neg (Nat.succ_ne_zero n)]
    show 1 ≤ (((decDigits (n + 1)).map Nat.digitChar).reverse).length
    rw [decDigits, decDigitsAux]
    simp

theorem allIdsList_append : ∀ l1 l2 : List JNode,
    allIdsList (l1 ++ l2) = allIdsList l1 ++ allIdsList l2
  | [], l2 => by simp [allIdsList]
  | c :: cs, l2 => by
    simp [allIdsList, allIdsList_append cs l2]

mutual
theorem pushChild_false : ∀ (i : String) (nw t : JNode),
    (pushChild i nw t).2 = false → (pushChild i nw t).1 = t
  | i, nw, .mk d none => by
    intro h
    by_cases hid : d.id = i
    · simp [pushChild, hid] at h
    · simp [pushChild, hid]
  | i, nw, .mk d (some children) => by
    intro h
    by_cases hid : d.id = i
    · simp [pushChild, hid] at h
    · simp only [pushChild, if_neg hid] at h ⊢
      rw [pushChildList_false i nw children h]
theorem pushChildList_false : ∀ (i : String) (nw : JNode) (cs : List JNode),
    (pushChildList i nw cs).2 = false → (pushChildList i nw cs).1 = cs
  | _, _, [] => by intro _; rfl
  | i, nw, c :: cs => by
    intro h
    simp only [pushChildList] at h ⊢
    rcases Bool.eq_false_or_eq_true ((pushChild i nw c).2) with hrc | hrc
    · rw [hrc] at h
      simp at h
    · rw [hrc] at h ⊢
      simp only [Bool.false_eq_true, if_false] at h ⊢
      rw [pushChildList_false i nw cs h]
end

mutual
theorem pushChild_perm : ∀ (i : String) (nw t : JNode),
    (pushChild i nw t).2 = true →
    (allIds (pushChild i nw t).1).Perm (allIds t ++ allIds nw)
  | i, nw, .mk d none => by
    intro h
    by_cases hid : d.id = i
    · simp [pushChild, hid, allIds, allIdsList]
    · simp [pushChild, hid] at h
  | i, nw, .mk d (some children) => by
    intro h
    by_cases hid : d.id = i
    · simp [pushChild, hid, allIds, allIdsList_append, allIdsList]
    · simp only [pushChild, if_neg hid] at h ⊢
      have hp := pushChildList_perm i nw children h
      simp only [allIds, List.cons_append]
      exact hp.cons d.id
theorem pushChildList_perm : ∀ (i : String) (nw : JNode) (cs : List JNode),
    (pushChildList i nw cs).2 = true →
    (allIdsList (pushChildList i nw cs).1).Perm (allIdsList cs ++ allIds nw)
  | i, nw, [] => by intro h; simp [pushChildList] at h
  | i, nw, c :: cs => by
    intro h
    simp only [pushChildList] at h ⊢
    rcases Bool.eq_false_or_eq_true ((pushChild i nw c).2) with hrc | hrc
    · have hp := pushChild_perm i nw c hrc
      rw [hrc]
      simp only [if_true, allIdsList]
      refine (hp.append_right (allIdsList cs)).trans ?_
      rw [List.append_assoc, List.append_assoc]
      exact List.Perm.append_left _ List.perm_append_comm
    · rw [hrc] at h ⊢
      simp only [Bool.false_eq_true, if_false] at h ⊢
      have hp := pushChildList_perm i nw cs h
      simp only [allIdsList, List.append_assoc]
      exact List.Perm.append_left _ hp
end

mutual
theorem spliceSibling_false : ∀ (i : String) (nw t : JNode),
    (spliceSibling i nw t).2 = false → (spliceSibling i nw t).1 = t
  | i, nw, .mk d none => by intro _; rfl
  | i, nw, .mk d (some children) => by
    intro h
    simp only [spliceSibling] at h ⊢
    rw [spliceSiblingList_false i nw children h]
theorem spliceSiblingList_false : ∀ (i : String) (nw : JNode) (cs : List JNode),
    (spliceSiblingList i nw cs).2 = false → (spliceSiblingList i nw cs).1 = cs
  | _, _, [] => by intro _; rfl
  | i, nw, c :: cs => by
    intro h
    simp only [spliceSiblingList] at h ⊢
    by_cases hid : c.idOf = i
    · simp [hid] at h
    · rw [if_neg hid] at h ⊢
      rcases Bool.eq_false_or_eq_true ((spliceSibling i nw c).2) with hrc | hrc
      · rw [hrc] at h
        simp at h
      · rw [hrc] at h ⊢
        simp only [Bool.false_eq_true, if_false] at h ⊢
        rw [spliceSiblingList_false i nw cs h]
end

mutual
theorem spliceSibling_perm : ∀ (i : String) (nw t : JNode),
    (spliceSibling i nw t).2 = true →
    (allIds (spliceSibling i nw t).1).Perm (allIds t ++ allIds nw)
  | i, nw, .mk d none => by intro h; simp [spliceSibling] at h
  | i, nw, .mk d (some children) => by
    intro h
    simp only [spliceSibling] at h ⊢
    have hp := spliceSiblingList_perm i nw children h
    simp only [allIds, List.cons_append]
    exact hp.cons d.id
theorem spliceSiblingList_perm : ∀ (i : String) (nw : JNode) (cs : List JNode),
    (spliceSiblingList i nw cs).2 = true →
    (allIdsList (spliceSiblingList i nw cs).1).Perm (allIdsList cs ++ allIds nw)
  | i, nw, [] => by intro h; simp [spliceSiblingList] at h
  | i, nw, c :: cs => by
    intro h
    simp only [spliceSiblingList] at h ⊢
    by_cases hid : c.idOf = i
    · rw [if_pos hid]
      simp only [allIdsList, allIdsList_append]
      rw [List.append_assoc]
      refine List.Perm.append_left _ ?_
      exact (List.Perm.append_left _ (List.Perm.refl _)).trans List.perm_append_comm
    · rw [if_neg hid] at h ⊢
      rcases Bool.eq_false_or_eq_true ((spliceSibling i nw c).2) with hrc | hrc
      · have hp := spliceSibling_perm i nw c hrc
        rw [hrc]
        simp only [if_true, allIdsList]
        refine (hp.append_right (allIdsList cs)).trans ?_
        rw [List.append_assoc, List.append_assoc]
        exact List.Perm.append_left _ List.perm_append_comm
      · rw [hrc] at h ⊢
        simp only [Bool.false_eq_true, if_false] at h ⊢
        have hp := spliceSiblingList_perm i nw cs h
        simp only [allIdsList, List.append_assoc]
        exact List.Perm.append_left _ hp
end

theorem nodeId_str_inj : ∀ a b : ℕ,
    ("node_" ++ natToString a) = ("node_" ++ natToString b) → a = b := by
  intro a b h
  have hdata := congrArg String.data h
  rw [String.data_append, String.data_append] at hdata
  exact natToString_inj a b (String.ext (List.append_cancel_left hdata))

theorem grow_preserves (tOld tNew : JNode) (c : ℕ)
    (h1 : (allIds tOld).Nodup)
    (h2 : ∀ k, c < k → ("node_" ++ natToString k) ∉ allIds tOld)
    (hcase : tNew = tOld ∨ (allIds tNew).Perm (allIds tOld ++ [generateId c])) :
    (allIds tNew).Nodup ∧
    ∀ k, c + 1 < k → ("node_" ++ natToString k) ∉ allIds tNew := by
  rcases hcase with rfl | hperm
  · exact ⟨h1, fun k hk => h2 k (by omega)⟩
  · constructor
    · rw [hperm.nodup_iff, List.nodup_append]
      refine ⟨h1, List.nodup_singleton _, ?_⟩
      intro x hx hx'
      simp only [List.mem_singleton] at hx'
      subst hx'
      exact h2 (c + 1) (by omega) hx
    · intro k hk hmem
      rw [hperm.mem_iff] at hmem
      rcases List.mem_append.mp hmem with hmem | hmem
      · exact h2 k (by omega) hmem
      · simp only [List.mem_singleton, generateId] at hmem
        have := nodeId_str_inj k (c + 1) hmem
        omega

theorem addChild_state (st : MapState) (pid : String) (nm : Option String) :
    (addChild true st pid nm).2 = st ∨
    (addChild true st pid nm).2
      = ⟨(pushChild pid (JNode.mk { id := generateId st.nodeIdCounter, name := jsOrElse nm "New Node" } none) st.treeData).1,
         st.nodeIdCounter + 1⟩ := by
  rw [addChild]
  simp only [Bool.not_true, Bool.false_eq_true, if_false]
  cases findNodeById st.treeData pid with
  | none => exact Or.inl rfl
  | some q => exact Or.inr rfl

theorem addSibling_state (st : MapState) (nid : String) (nm : Option String) :
    (addSibling true st nid nm).2 = st ∨
    (addSibling true st nid nm).2
      = ⟨(spliceSibling nid (JNode.mk { id := generateId st.nodeIdCounter, name := jsOrElse nm "New Node" } none) st.treeData).1,
         st.nodeIdCounter + 1⟩ := by
  rw [addSibling]
  simp only [Bool.not_true, Bool.false_eq_true, if_false]
  cases findParentById st.treeData nid with
  | none => exact Or.inl rfl
  | some q => exact Or.inr rfl

theorem applyOp_preserves (st : MapState) (op : EditOp)
    (h1 : (allIds st.treeData).Nodup)
    (h2 : ∀ k, st.nodeIdCounter < k → ("node_" ++ natToString k) ∉ allIds st.treeData) :
    (allIds (applyOp st op).treeData).Nodup ∧
    ∀ k, (applyOp st op).nodeIdCounter < k →
      ("node_" ++ natToString k) ∉ allIds (applyOp st op).treeData := by
  cases op with
  | child pid nm =>
    have hdef : applyOp st (EditOp.child pid nm) = (addChild true st pid nm).2 := rfl
    rw [hdef]
    rcases addChild_state st pid nm with heq | heq
    · rw [heq]
      exact ⟨h1, h2⟩
    · rw [heq]
      refine grow_preserves st.treeData _ st.nodeIdCounter h1 h2 ?_
      rcases Bool.eq_false_or_eq_true ((pushChild pid
          (JNode.mk { id := generateId st.nodeIdCounter, name := jsOrElse nm "New Node" } none)
          st.treeData).2) with hpc | hpc
      · refine Or.inr ?_
        have hp := pushChild_perm _ _ _ hpc
        simpa [allIds] using hp
      · exact Or.inl (pushChild_false _ _ _ hpc)
  | sibling nid nm =>
    have hdef : applyOp st (EditOp.sibling nid nm) = (addSibling true st nid nm).2 := rfl
    rw [hdef]
    rcases addSibling_state st nid nm with heq | heq
    · rw [heq]
      exact ⟨h1, h2⟩
    · rw [heq]
      refine grow_preserves st.treeData _ st.nodeIdCounter h1 h2 ?_
      rcases Bool.eq_false_or_eq_true ((spliceSibling nid
          (JNode.mk { id := generateId st.nodeIdCounter, name := jsOrElse nm "New Node" } none)
          st.treeData).2) with hsc | hsc
      · refine Or.inr ?_
        have hp := spliceSibling_perm _ _ _ hsc
        simpa [allIds] using hp
      · exact Or.inl (spliceSibling_false _ _ _ hsc)

/-- C8 (amended): Freshly generated ids `node_(counter+1)` are pairwise
distinct and never repeat, so after any sequence of `addChild`/`addSibling`
calls no two nodes share an id — provided the starting tree's ids are
pairwise distinct and no existing id already has the form `node_k` for a
counter value `k` the generator has not yet passed.  Without that proviso
a caller-supplied id can collide with a freshly generated one (see the
counterexample). -/
theorem claim8_id_uniqueness (st : MapState) (ops : List EditOp)
    (h1 : (allIds st.treeData).Nodup)
    (h2 : ∀ k, st.nodeIdCounter < k → ("node_" ++ natToString k) ∉ allIds st.treeData) :
    (allIds (applyOps st ops).treeData).Nodup := by
  induction ops generalizing st with
  | nil => exact h1
  | cons op ops ih =>
    rw [applyOps, List.foldl_cons]
    obtain ⟨g1, g2⟩ := applyOp_preserves st op h1 h2
    exact ih (applyOp st op) g1 g2

/-- C8 (counterexample): the claim fails for an arbitrary initialized
tree: starting from a perfectly valid tree that already contains the id
`node_1` with the counter at 0, one successful `addChild` produces a
duplicated id. -/
theorem claim8_counterexample :
    ¬ (allIds (applyOp ⟨collideTree, 0⟩ (.child "root" none)).treeData).Nodup := by
  decide

theorem specTree_fresh : ∀ k : ℕ, 0 < k →
    ("node_" ++ natToString k) ∉ allIds specTree := by
  intro k hk hmem
  have hids : allIds specTree = ["root", "a", "b", "b1"] := by decide
  rw [hids] at hmem
  have hlen : 6 ≤ ("node_" ++ natToString k).length := by
    rw [String.length_append]
    have := natToString_length_pos k
    have h5 : ("node_" : String).length = 5 := by decide
    omega
  simp only [List.mem_cons, List.not_mem_nil, or_false] at hmem
  rcases hmem with h | h | h | h <;>
    · rw [h] at hlen
      exact absurd hlen (by decide)

theorem claim8_witness :
    (allIds (applyOps ⟨specTree, 0⟩
      [.child "root" none, .sibling "a" (some "C")]).treeData).Nodup :=
  claim8_id_uniqueness ⟨specTree, 0⟩ [.child "root" none, .sibling "a" (some "C")]
    (by decide) specTree_fresh
